import Mathlib

/-
Verification of the decision engine of ahkao7414/Chess (src/ai_player.js):
the material evaluator, the recursive minimax search over simulated game
states, and the top-level move selector.  The external rules engine
(the `Game` class) is not part of the core source; the operations the core
calls on it are modelled from the specification's contracts (spec sections
3, 4.3 and 6) and are marked "Modelled from the spec" below.
-/

namespace Chess

/-- The two sides of the game. -/
inductive Color where
  | white
  | black
deriving DecidableEq, Repr

/-- The side opposite to a given side (`aiColor === "white" ? "black" : "white"`). -/
def Color.opposite : Color → Color
  | .white => .black
  | .black => .white

/-- A board coordinate. -/
abbrev Pos := Nat × Nat

/-- Modelled from the spec: a Piece has a kind (`type`, a string as in the
source's switch over `piece.type`), a color and a board position. -/
structure Piece where
  type : String
  color : Color
  position : Pos
deriving DecidableEq, Repr

/-- Modelled from the spec: a GameState is the complete position — the list
of pieces, the side to move (`currentPlayer`), and the outcome marker
(`isFinished()` together with the `winner` field: finished with a winner is
a decisive outcome, finished with no winner is a draw). -/
structure GameState where
  pieces : List Piece
  currentPlayer : Color
  finished : Bool
  winner : Option Color
deriving DecidableEq, Repr

/-- A candidate move `{ piece, from, to }` as built by the enumeration loops
(`from` and `to` are written `fromPos` and `toPos`). -/
structure Move where
  piece : Piece
  fromPos : Pos
  toPos : Pos
deriving DecidableEq, Repr

/-- Modelled from the spec: the external rules engine's pure query surface
(`getLegalDestinations`, `isInCheck`, `checkPromotionEligibility`), which the
core treats as ground truth.  `getMoves` takes the occupancy (the piece list)
and a piece and returns its legal destination squares. -/
structure Rules where
  getMoves : List Piece → Piece → List Pos
  isCheck : GameState → Color → Bool
  needsPromotion : Piece → Bool

-- ==========================================
-- 1. Evaluator (src/ai_player.js lines 11-49)
-- ==========================================

/-- `AIEngine.getPieceValue`: fixed material value of a piece kind, 0 for any
unrecognized kind. -/
def getPieceValue (pieceType : String) : Int :=
  match pieceType with
  | "pawn" => 100
  | "knight" => 320
  | "bishop" => 330
  | "rook" => 500
  | "queen" => 900
  | "king" => 20000
  | _ => 0

/-- `AIEngine.evaluateBoard`: signed material sum over all pieces, adding the
value of `playerColor`'s pieces and subtracting the value of the rest. -/
def evaluateBoard (gameInstance : GameState) (playerColor : Color) : Int :=
  gameInstance.pieces.foldl
    (fun score piece =>
      if piece.color = playerColor then score + getPieceValue piece.type
      else score - getPieceValue piece.type)
    0

-- ==========================================
-- Scores: JS numbers with the Infinity sentinels
-- ==========================================

/-- A search score: the win sentinel `Infinity`, the loss sentinel
`-Infinity`, or a finite evaluation. -/
inductive Score where
  | negInf
  | fin (n : Int)
  | posInf
deriving DecidableEq, Repr

/-- `Math.max` on scores, with the JS semantics of the infinities. -/
def Score.max : Score → Score → Score
  | .negInf, b => b
  | .posInf, _ => .posInf
  | .fin m, .negInf => .fin m
  | .fin m, .fin n => .fin (Max.max m n)
  | .fin _, .posInf => .posInf

/-- `Math.min` on scores, with the JS semantics of the infinities. -/
def Score.min : Score → Score → Score
  | .posInf, b => b
  | .negInf, _ => .negInf
  | .fin m, .posInf => .fin m
  | .fin m, .fin n => .fin (Min.min m n)
  | .fin _, .negInf => .negInf

/-- The strict order `a < b` on scores (as the JS `>` comparison, flipped). -/
def Score.lt : Score → Score → Bool
  | .negInf, .negInf => false
  | .negInf, _ => true
  | .fin _, .negInf => false
  | .fin m, .fin n => decide (m < n)
  | .fin _, .posInf => true
  | .posInf, _ => false

-- ==========================================
-- State simulator (Modelled from the spec)
-- ==========================================

/-- Modelled from the spec: `findPieceAt(coordinate)` — the first piece of
the state occupying the given coordinate, if any
(`findPieceByPosition` in the source). -/
def findPieceByPosition (g : GameState) (pos : Pos) : Option Piece :=
  g.pieces.find? (fun p => decide (p.position = pos))

/-- Modelled from the spec: `cloneFullState()` / `new Game(g.export())` —
an independent copy of the state with no shared mutable substructure. -/
def cloneState (g : GameState) : GameState :=
  { pieces := g.pieces
    currentPlayer := g.currentPlayer
    finished := g.finished
    winner := g.winner }

/-- Relocate the first piece found at `fromPos` to `toPos`. -/
def movePieceAt : List Piece → Pos → Pos → List Piece
  | [], _, _ => []
  | p :: rest, fromPos, toPos =>
    if p.position = fromPos then { p with position := toPos } :: rest
    else p :: movePieceAt rest fromPos toPos

/-- Remove the first piece found at `pos`. -/
def removePieceAt : List Piece → Pos → List Piece
  | [], _ => []
  | p :: rest, pos =>
    if p.position = pos then rest else p :: removePieceAt rest pos

/-- Modelled from the spec: `moveSelected(to)` — plain relocation of the
selected piece (the one at `fromPos`) to the empty square `toPos`. -/
def moveSelected (g : GameState) (fromPos toPos : Pos) : GameState :=
  { g with pieces := movePieceAt g.pieces fromPos toPos }

/-- Modelled from the spec: `takeWithSelected(target)` — capture resolution:
the opposing piece at `toPos` is removed and the selected piece (the one at
`fromPos`) relocates to `toPos`. -/
def takeWithSelected (g : GameState) (fromPos toPos : Pos) : GameState :=
  { g with pieces := movePieceAt (removePieceAt g.pieces toPos) fromPos toPos }

/-- Set the kind of the first piece at `pos` to the strongest kind, queen. -/
def promotePieceAt : List Piece → Pos → List Piece
  | [], _ => []
  | p :: rest, pos =>
    if p.position = pos then { p with type := "queen" } :: rest
    else p :: promotePieceAt rest pos

/-- Modelled from the spec: `finalizePawnPromotion("queen")` — the simulated
state's moved pawn is promoted to a queen in place. -/
def finalizePawnPromotion (g : GameState) (pos : Pos) : GameState :=
  { g with pieces := promotePieceAt g.pieces pos }

/-- Modelled from the spec: `toggleCurrentPlayer()` — flip the side to move. -/
def toggleCurrentPlayer (g : GameState) : GameState :=
  { g with currentPlayer := g.currentPlayer.opposite }

/-- The bookkeeping shared by every successful simulated move: check the
moved piece (now at `toPos`) for promotion and auto-promote to queen, set
`currentPlayer` to the mover, then toggle to the other side. -/
def afterMoveBookkeeping (R : Rules) (child : GameState) (toPos : Pos)
    (playerForThisTurn : Color) : GameState :=
  let child :=
    match findPieceByPosition child toPos with
    | some moved =>
      if R.needsPromotion moved then finalizePawnPromotion child toPos else child
    | none => child
  let child := { child with currentPlayer := playerForThisTurn }
  toggleCurrentPlayer child

/-- One simulated branch of the minimax loops (lines 100-131 and 140-167 of
the source): clone the state, find the mover at `m.fromPos` (absence is the
desynchronization fault, `none`), capture or relocate at `m.toPos` (a
same-color target is the illegal-target fault, `none`), then do the shared
bookkeeping. -/
def simMoveChild (R : Rules) (g : GameState) (playerForThisTurn : Color)
    (m : Move) : Option GameState :=
  let childGameSim := cloneState g
  match findPieceByPosition childGameSim m.fromPos with
  | none => none
  | some pieceToMoveInSim =>
    match findPieceByPosition childGameSim m.toPos with
    | some pieceAtTargetInSim =>
      if pieceAtTargetInSim.color ≠ pieceToMoveInSim.color then
        some (afterMoveBookkeeping R
          (takeWithSelected childGameSim m.fromPos m.toPos) m.toPos
          playerForThisTurn)
      else none
    | none =>
      some (afterMoveBookkeeping R
        (moveSelected childGameSim m.fromPos m.toPos) m.toPos
        playerForThisTurn)

-- ==========================================
-- 2. Minimax core (src/ai_player.js lines 65-174)
-- ==========================================

/-- The move enumeration both `minimax` and `chooseMove` perform: for every
piece of the given color, one Move per legal destination returned by the
rules engine, in piece order then destination order. -/
def legalMovesFor (R : Rules) (g : GameState) (color : Color) : List Move :=
  (g.pieces.filter (fun p => decide (p.color = color))).flatMap
    (fun piece =>
      (R.getMoves g.pieces piece).map
        (fun targetSquare =>
          { piece := piece, fromPos := piece.position, toPos := targetSquare }))

/-- The terminal scoring of `minimax` (lines 67-76): with a decided winner,
the win sentinel for `aiPlayerColor` and the loss sentinel otherwise; with
no winner, the static material evaluation. -/
def terminalScore (g : GameState) (aiPlayerColor : Color) : Score :=
  match g.winner with
  | some w => if w = aiPlayerColor then Score.posInf else Score.negInf
  | none => Score.fin (evaluateBoard g aiPlayerColor)

/-- The `minimax` recursion of the source, with the depth counter as a
natural number.  At depth 0 or a finished game it returns the terminal
score; with no legal move it scores checkmate (loss sentinel for the
maximizing side, win sentinel against the minimizing side) or stalemate
(0); otherwise it folds `Score.max` (resp. `Score.min`) over the simulated
children, skipping any branch whose simulation faults. -/
def minimax (R : Rules) : Nat → GameState → Bool → Color → Score
  | 0, gameInstanceSim, _, aiPlayerColor => terminalScore gameInstanceSim aiPlayerColor
  | depth + 1, gameInstanceSim, isMaximizingPlayer, aiPlayerColor =>
    if gameInstanceSim.finished then terminalScore gameInstanceSim aiPlayerColor
    else
      let playerForThisTurn :=
        if isMaximizingPlayer then aiPlayerColor else aiPlayerColor.opposite
      let legalMoves := legalMovesFor R gameInstanceSim playerForThisTurn
      if legalMoves.isEmpty then
        if R.isCheck gameInstanceSim playerForThisTurn then
          if isMaximizingPlayer then Score.negInf else Score.posInf
        else Score.fin 0
      else
        if isMaximizingPlayer then
          legalMoves.foldl
            (fun maxEval m =>
              match simMoveChild R gameInstanceSim playerForThisTurn m with
              | none => maxEval
              | some childGameSim =>
                Score.max maxEval (minimax R depth childGameSim false aiPlayerColor))
            Score.negInf
        else
          legalMoves.foldl
            (fun minEval m =>
              match simMoveChild R gameInstanceSim playerForThisTurn m with
              | none => minEval
              | some childGameSim =>
                Score.min minEval (minimax R depth childGameSim true aiPlayerColor))
            Score.posInf

-- ==========================================
-- 3. Move selector (src/ai_player.js lines 179-300)
-- ==========================================

/-- The ambient random source (`Math.random()`), split into the two
decisions the selector draws from it: `tieBreak k` is whether the draw at
root move `k` lands below the tie-break probability 0.3 (so the equal-score
move replaces the current best), and `fallbackPick n` is the raw draw for
`Math.floor(Math.random() * n)` when a uniformly random fallback among `n`
root moves is needed. -/
structure RandPolicy where
  tieBreak : Nat → Bool
  fallbackPick : Nat → Nat

/-- `possibleAIMoves[Math.floor(Math.random() * possibleAIMoves.length)]`:
the random fallback pick, `none` only on an empty list. -/
def pickRandomMove (r : RandPolicy) (moves : List Move) : Option Move :=
  moves[r.fallbackPick moves.length % moves.length]?

/-- The depth constant `SEARCH_DEPTH` of the source. -/
def SEARCH_DEPTH : Nat := 2

/-- The root loop of `chooseMove` (lines 206-267): for each root move,
clone the original state, re-find the mover (absence skips the branch),
check the move against the rules engine's destination list
(`canTakeWithSelected` / `canMoveSelected`, modelled from the spec as
membership of the target in the selected piece's legal destinations),
apply capture or relocation, do the promotion and side-to-move bookkeeping,
score the child with `minimax (SEARCH_DEPTH - 1)` for the minimizing side,
and keep the best score — a strictly better score always replaces the best
move, an equal score replaces it only when the tie-break draw says so.
The original state `g` is threaded through unchanged and returned, so that
the no-mutation guarantee is a statement about this function. -/
def rootLoop (R : Rules) (r : RandPolicy) (aiColor : Color) :
    List Move → Nat → GameState → Option Move → Score →
      Option Move × Score × GameState
  | [], _, g, bestMove, bestScore => (bestMove, bestScore, g)
  | move :: rest, k, g, bestMove, bestScore =>
    let gameSim := cloneState g
    match findPieceByPosition gameSim move.fromPos with
    | none => rootLoop R r aiColor rest (k + 1) g bestMove bestScore
    | some pieceToMoveInSim =>
      let possibleMoves := R.getMoves gameSim.pieces pieceToMoveInSim
      let simMade : Option GameState :=
        match findPieceByPosition gameSim move.toPos with
        | some pieceAtTargetInSim =>
          if pieceAtTargetInSim.color ≠ pieceToMoveInSim.color then
            if move.toPos ∈ possibleMoves then
              some (takeWithSelected gameSim move.fromPos move.toPos)
            else none
          else none
        | none =>
          if move.toPos ∈ possibleMoves then
            some (moveSelected gameSim move.fromPos move.toPos)
          else none
      match simMade with
      | none => rootLoop R r aiColor rest (k + 1) g bestMove bestScore
      | some gameSim =>
        let gameSim := afterMoveBookkeeping R gameSim move.toPos aiColor
        let currentMoveScore := minimax R (SEARCH_DEPTH - 1) gameSim false aiColor
        if Score.lt bestScore currentMoveScore then
          rootLoop R r aiColor rest (k + 1) g (some move) currentMoveScore
        else if currentMoveScore = bestScore then
          if r.tieBreak k then
            rootLoop R r aiColor rest (k + 1) g (some move) bestScore
          else rootLoop R r aiColor rest (k + 1) g bestMove bestScore
        else rootLoop R r aiColor rest (k + 1) g bestMove bestScore

/-- The tail of `chooseMove` (lines 269-299): if the loop selected nothing,
fall back to a uniformly random root move; then resolve the chosen move's
piece against the original state by origin coordinate — on success return
the move rebuilt around the original piece, and on resolution failure fall
back again to a uniformly random root move; `none` only when there is no
root move at all. -/
def resolveBestMove (r : RandPolicy) (gameInstance : GameState)
    (possibleAIMoves : List Move) (bestMove0 : Option Move) : Option Move :=
  let bestMove :=
    match bestMove0 with
    | none =>
      if possibleAIMoves.isEmpty then none else pickRandomMove r possibleAIMoves
    | some bm => some bm
  match bestMove with
  | some bm =>
    match findPieceByPosition gameInstance bm.fromPos with
    | some originalPieceForBestMove =>
      some { piece := originalPieceForBestMove, fromPos := bm.fromPos, toPos := bm.toPos }
    | none =>
      if possibleAIMoves.isEmpty then none else pickRandomMove r possibleAIMoves
  | none =>
    if possibleAIMoves.isEmpty then none else pickRandomMove r possibleAIMoves

/-- `AIEngine.chooseMove`: enumerate the root moves of the side to move on
the original state, run the root loop, and resolve the result.  The second
component of the result is the original game instance as the call leaves
it; the source only ever reads from `gameInstance` and mutates fresh
clones, which the embedding renders by threading the state through
`rootLoop` and returning it. -/
def chooseMove (R : Rules) (r : RandPolicy) (gameInstance : GameState) :
    Option Move × GameState :=
  let aiColor := gameInstance.currentPlayer
  let possibleAIMoves := legalMovesFor R gameInstance aiColor
  if possibleAIMoves.isEmpty then (none, gameInstance)
  else
    match rootLoop R r aiColor possibleAIMoves 0 gameInstance none Score.negInf with
    | (bestMove, _, gameInstance) =>
      (resolveBestMove r gameInstance possibleAIMoves bestMove, gameInstance)

-- ==========================================
-- Fuel-indexed minimax, for the termination claim
-- ==========================================

/-- One step of a fuel-metered branch fold: a faulted simulation keeps the
accumulator, and a branch whose recursive score ran out of fuel (or an
already exhausted accumulator) poisons the whole fold to `none`. -/
def foldStepO {γ : Type} (sim : Move → Option GameState)
    (fo : GameState → Option γ) (comb : γ → γ → γ)
    (acc : Option γ) (m : Move) : Option γ :=
  match sim m with
  | none => acc
  | some c =>
    match acc, fo c with
    | some a, some v => some (comb a v)
    | _, _ => none

/-- `minimax` with an explicit fuel budget that every call, recursive calls
included, consumes: `none` means the budget was exhausted before the
recursion bottomed out.  The body at positive fuel is the body of
`minimax`, with every recursive call paying one unit of fuel. -/
def minimaxFuel (R : Rules) : Nat → Nat → GameState → Bool → Color → Option Score
  | 0, _, _, _, _ => none
  | fuel + 1, depth, gameInstanceSim, isMaximizingPlayer, aiPlayerColor =>
    if depth = 0 ∨ gameInstanceSim.finished then
      some (terminalScore gameInstanceSim aiPlayerColor)
    else
      let playerForThisTurn :=
        if isMaximizingPlayer then aiPlayerColor else aiPlayerColor.opposite
      let legalMoves := legalMovesFor R gameInstanceSim playerForThisTurn
      if legalMoves.isEmpty then
        some (if R.isCheck gameInstanceSim playerForThisTurn then
                if isMaximizingPlayer then Score.negInf else Score.posInf
              else Score.fin 0)
      else
        if isMaximizingPlayer then
          legalMoves.foldl
            (foldStepO (simMoveChild R gameInstanceSim playerForThisTurn)
              (fun childGameSim =>
                minimaxFuel R fuel (depth - 1) childGameSim false aiPlayerColor)
              Score.max)
            (some Score.negInf)
        else
          legalMoves.foldl
            (foldStepO (simMoveChild R gameInstanceSim playerForThisTurn)
              (fun childGameSim =>
                minimaxFuel R fuel (depth - 1) childGameSim true aiPlayerColor)
              Score.min)
            (some Score.posInf)

-- ==========================================
-- Concrete instances used by counterexamples and witnesses
-- ==========================================

/-- A rules engine with no legal destinations, no checks, no promotions. -/
def trivialRules : Rules :=
  { getMoves := fun _ _ => []
    isCheck := fun _ _ => false
    needsPromotion := fun _ => false }

/-- A finished game with no winner (a draw) in which white keeps a queen. -/
def drawState : GameState :=
  { pieces := [{ type := "queen", color := .white, position := (0, 0) }]
    currentPlayer := .white
    finished := true
    winner := none }

-- ==========================================
-- Helper lemmas
-- ==========================================

lemma Color.opposite_opposite (c : Color) : c.opposite.opposite = c := by
  cases c <;> rfl

lemma Color.eq_opposite_of_ne {a b : Color} (h : ¬a = b) : a = b.opposite := by
  cases a <;> cases b <;> simp_all [Color.opposite]

lemma Color.ne_opposite (c : Color) : ¬c = c.opposite := by
  cases c <;> simp [Color.opposite]

lemma Color.opposite_ne (c : Color) : ¬c.opposite = c := by
  cases c <;> simp [Color.opposite]

/-- Folding a combining function while skipping the faulted branches is the
same as folding over the list of successful branch values. -/
lemma foldl_skip_eq_filterMap {γ : Type} (sim : Move → Option GameState)
    (f : GameState → γ) (comb : γ → γ → γ) :
    ∀ (l : List Move) (acc : γ),
      l.foldl
        (fun a m =>
          match sim m with
          | none => a
          | some c => comb a (f c)) acc =
      (l.filterMap fun m => (sim m).map f).foldl comb acc := by
  intro l
  induction l with
  | nil => intro acc; rfl
  | cons m rest ih =>
    intro acc
    cases h : sim m <;> simp [List.foldl_cons, List.filterMap_cons, h, ih]

lemma minimax_succ_finished (R : Rules) (d : Nat) (g : GameState)
    (isMax : Bool) (ai : Color) (hf : g.finished = true) :
    minimax R (d + 1) g isMax ai = terminalScore g ai := by
  simp [minimax, hf]

-- ==========================================
-- C2: decided terminal nodes score as the sentinels
-- ==========================================

/-- C2: at a node where the depth is exhausted or the game is finished and
the outcome names a winner, minimax returns the win sentinel when the winner
is `aiColor` and the loss sentinel otherwise, regardless of the material on
the board. -/
theorem minimax_decided_winner (R : Rules) (depth : Nat) (g : GameState)
    (isMax : Bool) (ai w : Color)
    (hterm : depth = 0 ∨ g.finished = true) (hw : g.winner = some w) :
    minimax R depth g isMax ai = if w = ai then Score.posInf else Score.negInf := by
  have hts : terminalScore g ai = if w = ai then Score.posInf else Score.negInf := by
    simp [terminalScore, hw]
  cases depth with
  | zero => simpa [minimax] using hts
  | succ d =>
    rcases hterm with h | h
    · exact absurd h (Nat.succ_ne_zero d)
    · rw [minimax_succ_finished R d g isMax ai h, hts]

/-- Witness for C2: a finished game won by black, searched for black at
depth 4, scores as the win sentinel. -/
theorem minimax_decided_winner_witness :
    ((4 = 0 ∨ GameState.finished
        { pieces := [], currentPlayer := .white, finished := true,
          winner := some .black } = true) ∧
      GameState.winner
        { pieces := [], currentPlayer := .white, finished := true,
          winner := some .black } = some .black) ∧
    minimax trivialRules 4
        { pieces := [], currentPlayer := .white, finished := true,
          winner := some .black } true .black =
      if Color.black = Color.black then Score.posInf else Score.negInf :=
  ⟨⟨Or.inr rfl, rfl⟩,
    minimax_decided_winner trivialRules 4
      { pieces := [], currentPlayer := .white, finished := true,
        winner := some .black } true .black .black (Or.inr rfl) rfl⟩

-- ==========================================
-- C4: drawn terminal nodes fall through to the static evaluation
-- ==========================================

/-- Counterexample to C4: a finished game with no winner in which white
keeps a queen scores as the static evaluation −900 for black — not 0 —
at depth 3. -/
theorem minimax_draw_not_zero :
    minimax trivialRules 3 drawState true .black = Score.fin (-900) ∧
      Score.fin (-900) ≠ Score.fin 0 :=
  ⟨rfl, by decide⟩

/-- C4 (amended): at a terminal node whose game is over with a drawn
outcome (finished with no winner), minimax returns the static material
evaluation `evaluateBoard(state, aiColor)` — which is 0 exactly when the
material is balanced, not unconditionally. -/
theorem minimax_draw_eval (R : Rules) (depth : Nat) (g : GameState)
    (isMax : Bool) (ai : Color)
    (hterm : depth = 0 ∨ g.finished = true) (hw : g.winner = none) :
    minimax R depth g isMax ai = Score.fin (evaluateBoard g ai) := by
  have hts : terminalScore g ai = Score.fin (evaluateBoard g ai) := by
    simp [terminalScore, hw]
  cases depth with
  | zero => simpa [minimax] using hts
  | succ d =>
    rcases hterm with h | h
    · exact absurd h (Nat.succ_ne_zero d)
    · rw [minimax_succ_finished R d g isMax ai h, hts]

/-- Witness for the amended C4: the drawn state with a lone white queen
evaluates to −900 for black. -/
theorem minimax_draw_eval_witness :
    ((3 = 0 ∨ drawState.finished = true) ∧ drawState.winner = none) ∧
    minimax trivialRules 3 drawState true .black =
      Score.fin (evaluateBoard drawState .black) :=
  ⟨⟨Or.inr rfl, rfl⟩,
    minimax_draw_eval trivialRules 3 drawState true .black (Or.inr rfl) rfl⟩

-- ==========================================
-- C5: the evaluator is signed material difference
-- ==========================================

/-- Modelled from the spec: the material table stated in the specification —
pawn 100, knight 320, bishop 330, rook 500, queen 900, king 20000, and 0
for any other kind. -/
def materialValueSpec (kind : String) : Int :=
  if kind = "pawn" then 100
  else if kind = "knight" then 320
  else if kind = "bishop" then 330
  else if kind = "rook" then 500
  else if kind = "queen" then 900
  else if kind = "king" then 20000
  else 0

/-- The total material value of a side's pieces. -/
def material (g : GameState) (c : Color) : Int :=
  ((g.pieces.filter fun p => decide (p.color = c)).map
    fun p => getPieceValue p.type).sum

lemma evaluateBoard_foldl (c : Color) :
    ∀ (l : List Piece) (acc : Int),
      l.foldl
        (fun score piece =>
          if piece.color = c then score + getPieceValue piece.type
          else score - getPieceValue piece.type) acc =
      acc +
        ((l.filter fun p => decide (p.color = c)).map
          fun p => getPieceValue p.type).sum -
        ((l.filter fun p => decide (p.color = c.opposite)).map
          fun p => getPieceValue p.type).sum := by
  intro l
  induction l with
  | nil => intro acc; simp
  | cons p rest ih =>
    intro acc
    by_cases hp : p.color = c
    · have hop : ¬p.color = c.opposite := by
        rw [hp]; exact Color.ne_opposite c
      simp [List.foldl_cons, List.filter_cons, hp, hop, ih, Color.ne_opposite]
      ring
    · have hop : p.color = c.opposite := Color.eq_opposite_of_ne hp
      simp [List.foldl_cons, List.filter_cons, hp, hop, ih, Color.opposite_ne]
      ring

lemma evaluateBoard_eq_material (g : GameState) (c : Color) :
    evaluateBoard g c = material g c - material g c.opposite := by
  have h := evaluateBoard_foldl c g.pieces 0
  simpa [evaluateBoard, material] using h

/-- C5: the evaluator's piece values agree with the specification's fixed
material table (including 0 for unrecognized kinds); evaluateBoard is the
sum of the side's material minus the other side's material; and swapping
the color argument negates the result. -/
theorem evaluateBoard_material_spec :
    (∀ kind, getPieceValue kind = materialValueSpec kind) ∧
    (∀ (g : GameState) (c : Color),
      evaluateBoard g c = material g c - material g c.opposite) ∧
    (∀ (g : GameState) (c : Color),
      evaluateBoard g c = -evaluateBoard g c.opposite) := by
  refine ⟨?_, ?_, ?_⟩
  · intro kind
    unfold getPieceValue materialValueSpec
    split <;> simp_all
  · exact evaluateBoard_eq_material
  · intro g c
    rw [evaluateBoard_eq_material g c, evaluateBoard_eq_material g c.opposite,
      Color.opposite_opposite]
    ring

-- ==========================================
-- C3: checkmate and stalemate scoring at move-less nodes
-- ==========================================

/-- An undecided position with no pieces: the side to move has no legal
moves and is not in check. -/
def staleState : GameState :=
  { pieces := [], currentPlayer := .white, finished := false, winner := none }

/-- C3: at an undecided node with positive depth where the side to move has
no legal moves, minimax scores checkmate as the loss sentinel when the
maximizing side is the one with no moves and the win sentinel when the
minimizing side is, and scores stalemate (no moves, not in check) as
exactly 0. -/
theorem minimax_no_legal_moves (R : Rules) (depth : Nat) (g : GameState)
    (isMax : Bool) (ai : Color)
    (hd : 0 < depth) (hf : g.finished = false)
    (hlm : legalMovesFor R g (if isMax then ai else ai.opposite) = []) :
    minimax R depth g isMax ai =
      if R.isCheck g (if isMax then ai else ai.opposite) then
        if isMax then Score.negInf else Score.posInf
      else Score.fin 0 := by
  cases depth with
  | zero => omega
  | succ d =>
    cases isMax with
    | false =>
      simp only [Bool.false_eq_true, if_false] at hlm ⊢
      simp [minimax, hf, hlm]
    | true =>
      simp only [if_true] at hlm ⊢
      simp [minimax, hf, hlm]

/-- Witness for C3: the empty undecided position for white at depth 1 is a
stalemate for the rules engine with no moves and no checks, and scores 0. -/
theorem minimax_no_legal_moves_witness :
    (0 < 1 ∧ staleState.finished = false ∧
      legalMovesFor trivialRules staleState
        (if true then Color.white else Color.white.opposite) = []) ∧
    minimax trivialRules 1 staleState true .white =
      if trivialRules.isCheck staleState
          (if true then Color.white else Color.white.opposite) then
        if true then Score.negInf else Score.posInf
      else Score.fin 0 :=
  ⟨⟨by decide, rfl, by decide⟩,
    minimax_no_legal_moves trivialRules 1 staleState true .white
      (by decide) rfl (by decide)⟩

-- ==========================================
-- C1: the internal-node recurrence
-- ==========================================

/-- A position with a single white pawn, used to exercise an internal node. -/
def pawnState : GameState :=
  { pieces := [{ type := "pawn", color := .white, position := (0, 0) }]
    currentPlayer := .white
    finished := false
    winner := none }

/-- A rules engine in which every piece may move to the square (0, 1). -/
def pawnRules : Rules :=
  { getMoves := fun _ _ => [(0, 1)]
    isCheck := fun _ _ => false
    needsPromotion := fun _ => false }

/-- C1: at an internal node (positive depth, game not finished, a non-empty
legal-move list for the side to move), minimax equals the fold of
`Score.max` (when maximizing) or `Score.min` (when minimizing) over the
recursive scores `minimax (depth - 1)` of the child states, each child
produced by simulating one legal move on a fresh clone; a branch whose
simulation faults is dropped from the list and does not stop the fold. -/
theorem minimax_internal_recurrence (R : Rules) (depth : Nat) (g : GameState)
    (isMax : Bool) (ai : Color)
    (hd : 0 < depth) (hf : g.finished = false)
    (hne : legalMovesFor R g (if isMax then ai else ai.opposite) ≠ []) :
    minimax R depth g isMax ai =
      if isMax then
        ((legalMovesFor R g ai).filterMap fun m =>
          (simMoveChild R g ai m).map fun child =>
            minimax R (depth - 1) child false ai).foldl Score.max Score.negInf
      else
        ((legalMovesFor R g ai.opposite).filterMap fun m =>
          (simMoveChild R g ai.opposite m).map fun child =>
            minimax R (depth - 1) child true ai).foldl Score.min Score.posInf := by
  cases depth with
  | zero => omega
  | succ d =>
    cases isMax with
    | false =>
      simp only [Bool.false_eq_true, if_false] at hne ⊢
      have hE : (legalMovesFor R g ai.opposite).isEmpty = false := by
        cases hL : legalMovesFor R g ai.opposite with
        | nil => exact absurd hL hne
        | cons a l => rfl
      simp only [minimax, hf, Bool.false_eq_true, if_false, hE,
        Nat.add_sub_cancel]
      exact foldl_skip_eq_filterMap (simMoveChild R g ai.opposite)
        (fun child => minimax R d child true ai) Score.min
        (legalMovesFor R g ai.opposite) Score.posInf
    | true =>
      simp only [if_true] at hne ⊢
      have hE : (legalMovesFor R g ai).isEmpty = false := by
        cases hL : legalMovesFor R g ai with
        | nil => exact absurd hL hne
        | cons a l => rfl
      simp only [minimax, hf, Bool.false_eq_true, if_false, if_true, hE,
        Nat.add_sub_cancel]
      exact foldl_skip_eq_filterMap (simMoveChild R g ai)
        (fun child => minimax R d child false ai) Score.max
        (legalMovesFor R g ai) Score.negInf

/-- Witness for C1: the one-pawn position at depth 1, maximizing for white,
satisfies the recurrence at a concrete input. -/
theorem minimax_internal_recurrence_witness :
    (0 < 1 ∧ pawnState.finished = false ∧
      legalMovesFor pawnRules pawnState
        (if true then Color.white else Color.white.opposite) ≠ []) ∧
    minimax pawnRules 1 pawnState true .white =
      (if true then
        ((legalMovesFor pawnRules pawnState .white).filterMap fun m =>
          (simMoveChild pawnRules pawnState .white m).map fun child =>
            minimax pawnRules (1 - 1) child false .white).foldl
          Score.max Score.negInf
      else
        ((legalMovesFor pawnRules pawnState Color.white.opposite).filterMap fun m =>
          (simMoveChild pawnRules pawnState Color.white.opposite m).map fun child =>
            minimax pawnRules (1 - 1) child true .white).foldl
          Score.min Score.posInf) :=
  ⟨⟨by decide, rfl, by decide⟩,
    minimax_internal_recurrence pawnRules 1 pawnState true .white
      (by decide) rfl (by decide)⟩

-- ==========================================
-- C10: an internal node whose branches all fault
-- ==========================================

/-- An undecided position with a white king and a white rook. -/
def faultState : GameState :=
  { pieces := [{ type := "king", color := .white, position := (0, 0) },
               { type := "rook", color := .white, position := (1, 1) }]
    currentPlayer := .white
    finished := false
    winner := none }

/-- A rules engine that sends every piece to the square (1, 1) — occupied by
a same-color piece, so every simulated branch hits the illegal-target
fault. -/
def ownTargetRules : Rules :=
  { getMoves := fun _ _ => [(1, 1)]
    isCheck := fun _ _ => false
    needsPromotion := fun _ => false }

/-- C10: at an internal node (positive depth, not finished, a non-empty
legal-move list) where every branch's simulation faults, minimax returns
the untouched accumulator — the loss sentinel when maximizing and the win
sentinel when minimizing — indistinguishable from the checkmate sentinels,
rather than a static evaluation or an error value. -/
theorem minimax_all_branches_skipped (R : Rules) (depth : Nat) (g : GameState)
    (isMax : Bool) (ai : Color)
    (hd : 0 < depth) (hf : g.finished = false)
    (hne : legalMovesFor R g (if isMax then ai else ai.opposite) ≠ [])
    (hall : ∀ m ∈ legalMovesFor R g (if isMax then ai else ai.opposite),
      simMoveChild R g (if isMax then ai else ai.opposite) m = none) :
    minimax R depth g isMax ai =
      if isMax then Score.negInf else Score.posInf := by
  cases depth with
  | zero => omega
  | succ d =>
    cases isMax with
    | false =>
      simp only [Bool.false_eq_true, if_false] at hne hall ⊢
      have hE : (legalMovesFor R g ai.opposite).isEmpty = false := by
        cases hL : legalMovesFor R g ai.opposite with
        | nil => exact absurd hL hne
        | cons a l => rfl
      have hnil : ((legalMovesFor R g ai.opposite).filterMap fun m =>
          (simMoveChild R g ai.opposite m).map fun child =>
            minimax R d child true ai) = [] := by
        rw [List.filterMap_eq_nil_iff]
        intro m hm
        rw [hall m hm]
        rfl
      simp only [minimax, hf, Bool.false_eq_true, if_false, hE]
      rw [foldl_skip_eq_filterMap (simMoveChild R g ai.opposite)
        (fun child => minimax R d child true ai) Score.min
        (legalMovesFor R g ai.opposite) Score.posInf, hnil]
      rfl
    | true =>
      simp only [if_true] at hne hall ⊢
      have hE : (legalMovesFor R g ai).isEmpty = false := by
        cases hL : legalMovesFor R g ai with
        | nil => exact absurd hL hne
        | cons a l => rfl
      have hnil : ((legalMovesFor R g ai).filterMap fun m =>
          (simMoveChild R g ai m).map fun child =>
            minimax R d child false ai) = [] := by
        rw [List.filterMap_eq_nil_iff]
        intro m hm
        rw [hall m hm]
        rfl
      simp only [minimax, hf, Bool.false_eq_true, if_false, if_true, hE]
      rw [foldl_skip_eq_filterMap (simMoveChild R g ai)
        (fun child => minimax R d child false ai) Score.max
        (legalMovesFor R g ai) Score.negInf, hnil]
      rfl

/-- Witness for C10: with both white pieces sent onto the white rook's
square, every branch faults and the maximizing node returns the loss
sentinel. -/
theorem minimax_all_branches_skipped_witness :
    (0 < 1 ∧ faultState.finished = false ∧
      legalMovesFor ownTargetRules faultState
        (if true then Color.white else Color.white.opposite) ≠ [] ∧
      ∀ m ∈ legalMovesFor ownTargetRules faultState
          (if true then Color.white else Color.white.opposite),
        simMoveChild ownTargetRules faultState
          (if true then Color.white else Color.white.opposite) m = none) ∧
    minimax ownTargetRules 1 faultState true .white =
      if true then Score.negInf else Score.posInf :=
  ⟨⟨by decide, rfl, by decide, by decide⟩,
    minimax_all_branches_skipped ownTargetRules 1 faultState true .white
      (by decide) rfl (by decide) (by decide)⟩

-- ==========================================
-- C6: resolution failure falls back to a random move, not to none
-- ==========================================

/-- The random policy that always replaces on ties and always picks index 0. -/
def alwaysReplace : RandPolicy :=
  { tieBreak := fun _ => true
    fallbackPick := fun _ => 0 }

/-- A root move whose origin square holds no piece of `staleState`. -/
def lostMove : Move :=
  { piece := { type := "rook", color := .white, position := (3, 3) }
    fromPos := (3, 3)
    toPos := (4, 4) }

lemma pickRandomMove_mem (r : RandPolicy) (moves : List Move)
    (hne : moves ≠ []) : ∃ m ∈ moves, pickRandomMove r moves = some m := by
  have hn : 0 < moves.length := List.length_pos.mpr hne
  have hidx : r.fallbackPick moves.length % moves.length < moves.length :=
    Nat.mod_lt _ hn
  refine ⟨moves[r.fallbackPick moves.length % moves.length], ?_, ?_⟩
  · exact List.getElem_mem hidx
  · simp [pickRandomMove, List.getElem?_eq_getElem hidx]

/-- Counterexample to C6: with a determined best move whose origin holds no
piece of the original state, the selection tail returns the random
fallback move — a Move, not the "no move chosen" result. -/
theorem resolveBestMove_fault_returns_move :
    findPieceByPosition staleState lostMove.fromPos = none ∧
    resolveBestMove alwaysReplace staleState [lostMove] (some lostMove) =
      some lostMove ∧
    some lostMove ≠ (none : Option Move) := by
  refine ⟨by decide, by decide, by decide⟩

/-- C6 (amended): when the determined best move's piece cannot be re-found
at its origin in the original state, chooseMove's selection tail returns a
uniformly random element of the root-move list; it yields the "no move
chosen" result only when the root-move list is empty, which cannot happen
once a best move was determined. -/
theorem resolveBestMove_fault_fallback (r : RandPolicy) (g : GameState)
    (moves : List Move) (bm : Move)
    (hfind : findPieceByPosition g bm.fromPos = none) (hne : moves ≠ []) :
    ∃ m ∈ moves, resolveBestMove r g moves (some bm) = some m := by
  obtain ⟨m, hm, hpick⟩ := pickRandomMove_mem r moves hne
  have hE : moves.isEmpty = false := by
    cases moves with
    | nil => exact absurd rfl hne
    | cons a l => rfl
  exact ⟨m, hm, by simp [resolveBestMove, hfind, hE, hpick]⟩

/-- Witness for the amended C6: the lost move over the empty position
resolves to the single root move by random fallback. -/
theorem resolveBestMove_fault_fallback_witness :
    (findPieceByPosition staleState lostMove.fromPos = none ∧
      [lostMove] ≠ ([] : List Move)) ∧
    ∃ m ∈ [lostMove],
      resolveBestMove alwaysReplace staleState [lostMove] (some lostMove) =
        some m :=
  ⟨⟨by decide, by decide⟩,
    resolveBestMove_fault_fallback alwaysReplace staleState [lostMove] lostMove
      (by decide) (by decide)⟩

-- ==========================================
-- C7: determinism modulo the stubbed tie-break source
-- ==========================================

/-- C7: with the ambient random source stubbed — the tie-break draw made
constant (always replace, or never replace) and the fallback draw fixed by
the same stubbed generator — two runs of chooseMove on the same position
return the same move: the search depends on the random source only through
those two draws. -/
theorem chooseMove_deterministic (R : Rules) (g : GameState) (b : Bool)
    (r₁ r₂ : RandPolicy)
    (h₁ : ∀ n, r₁.tieBreak n = b) (h₂ : ∀ n, r₂.tieBreak n = b)
    (h₃ : ∀ n, r₁.fallbackPick n = r₂.fallbackPick n) :
    chooseMove R r₁ g = chooseMove R r₂ g := by
  have hr : r₁ = r₂ := by
    cases r₁ with
    | mk t₁ f₁ =>
      cases r₂ with
      | mk t₂ f₂ =>
        have ht : t₁ = t₂ := funext fun n => (h₁ n).trans (h₂ n).symm
        have hf : f₁ = f₂ := funext h₃
        rw [ht, hf]
  rw [hr]

/-- Witness for C7: two identically stubbed always-replace policies agree on
the one-pawn position. -/
theorem chooseMove_deterministic_witness :
    ((∀ n, alwaysReplace.tieBreak n = true) ∧
      (∀ n, alwaysReplace.tieBreak n = true) ∧
      (∀ n, alwaysReplace.fallbackPick n = alwaysReplace.fallbackPick n)) ∧
    chooseMove pawnRules alwaysReplace pawnState =
      chooseMove pawnRules alwaysReplace pawnState :=
  ⟨⟨fun _ => rfl, fun _ => rfl, fun _ => rfl⟩,
    chooseMove_deterministic pawnRules pawnState true alwaysReplace alwaysReplace
      (fun _ => rfl) (fun _ => rfl) (fun _ => rfl)⟩

-- ==========================================
-- C8: the original state survives chooseMove unchanged
-- ==========================================

lemma rootLoop_preserves (R : Rules) (r : RandPolicy) (ai : Color) :
    ∀ (moves : List Move) (k : Nat) (g : GameState) (b : Option Move)
      (s : Score), (rootLoop R r ai moves k g b s).2.2 = g := by
  intro moves
  induction moves with
  | nil => intro k g b s; rfl
  | cons m rest ih =>
    intro k g b s
    simp only [rootLoop]
    repeat' split
    all_goals apply ih

/-- C8: chooseMove leaves the original game instance exactly as it was —
the piece list, every piece's kind, color and position, the side to move
and the outcome marker: every simulated move is applied to a fresh clone,
and the original state, threaded through the whole search
(minimax expansions included), is returned unchanged. -/
theorem chooseMove_preserves_state (R : Rules) (r : RandPolicy)
    (g : GameState) : (chooseMove R r g).2 = g := by
  by_cases hE : (legalMovesFor R g g.currentPlayer).isEmpty
  · simp [chooseMove, hE]
  · rcases h3 : rootLoop R r g.currentPlayer
        (legalMovesFor R g g.currentPlayer) 0 g none Score.negInf with
      ⟨b, s, g2⟩
    have h := rootLoop_preserves R r g.currentPlayer
      (legalMovesFor R g g.currentPlayer) 0 g none Score.negInf
    rw [h3] at h
    simp only [chooseMove, hE, Bool.false_eq_true, if_false, h3]
    exact h

-- ==========================================
-- C9: the recursion bottoms out within the depth budget
-- ==========================================

lemma foldlOption_eq {γ : Type} (sim : Move → Option GameState)
    (fo : GameState → Option γ) (f : GameState → γ) (comb : γ → γ → γ)
    (hfo : ∀ c, fo c = some (f c)) :
    ∀ (l : List Move) (acc : γ),
      l.foldl (foldStepO sim fo comb) (some acc) =
      some (l.foldl
        (fun a m =>
          match sim m with
          | none => a
          | some c => comb a (f c)) acc) := by
  intro l
  induction l with
  | nil => intro acc; rfl
  | cons m rest ih =>
    intro acc
    cases h : sim m with
    | none => simp [List.foldl_cons, foldStepO, h, ih]
    | some c => simp [List.foldl_cons, foldStepO, h, hfo c, ih]

/-- C9: every recursive call of minimax runs at depth one less than its
caller, so a fuel budget of depth + 1 units — one per nesting level — is
enough for the fuel-metered copy of the recursion to finish and agree with
minimax, for every state: the recursion bottoms out at depth 0 or at a
decided outcome, and minimax is a total function of its arguments. -/
theorem minimaxFuel_eq_minimax (R : Rules) :
    ∀ (depth fuel : Nat) (g : GameState) (isMax : Bool) (ai : Color),
      depth < fuel →
      minimaxFuel R fuel depth g isMax ai = some (minimax R depth g isMax ai) := by
  intro depth
  induction depth with
  | zero =>
    intro fuel g isMax ai hlt
    cases fuel with
    | zero => omega
    | succ f => simp [minimaxFuel, minimax]
  | succ d ih =>
    intro fuel g isMax ai hlt
    cases fuel with
    | zero => omega
    | succ f =>
      have hdf : d < f := by omega
      by_cases hfin : g.finished = true
      · simp [minimaxFuel, minimax, hfin]
      · simp only [Bool.not_eq_true] at hfin
        cases isMax with
        | true =>
          by_cases hlm : (legalMovesFor R g ai).isEmpty
          · simp [minimaxFuel, minimax, hfin, hlm]
          · simp only [minimaxFuel, minimax, hfin, Bool.false_eq_true,
              if_false, if_true, hlm, Nat.add_sub_cancel,
              Nat.succ_ne_zero, false_or]
            exact foldlOption_eq (simMoveChild R g ai)
              (fun c => minimaxFuel R f d c false ai)
              (fun c => minimax R d c false ai) Score.max
              (fun c => ih f c false ai hdf)
              (legalMovesFor R g ai) Score.negInf
        | false =>
          by_cases hlm : (legalMovesFor R g ai.opposite).isEmpty
          · simp [minimaxFuel, minimax, hfin, hlm]
          · simp only [minimaxFuel, minimax, hfin, Bool.false_eq_true,
              if_false, hlm, Nat.add_sub_cancel,
              Nat.succ_ne_zero, false_or]
            exact foldlOption_eq (simMoveChild R g ai.opposite)
              (fun c => minimaxFuel R f d c true ai)
              (fun c => minimax R d c true ai) Score.min
              (fun c => ih f c true ai hdf)
              (legalMovesFor R g ai.opposite) Score.posInf

/-- Witness for C9: one unit of fuel beyond the depth suffices on the
one-pawn position at depth 1. -/
theorem minimaxFuel_eq_minimax_witness :
    1 < 2 ∧
    minimaxFuel pawnRules 2 1 pawnState true .white =
      some (minimax pawnRules 1 pawnState true .white) :=
  ⟨by decide,
    minimaxFuel_eq_minimax pawnRules 1 2 pawnState true .white (by decide)⟩

end Chess
